import Mathlib

/-!
Verification of the `struct-path` procedural macros (`path!` / `paths!`).

The Rust source (src/macro/src/lib.rs) is a pair of single-pass token-stream
scanners plus a group sub-parser, an option formatter (`apply_options`) and a
check-code emitter (`generate_checks_code_for`).  We embed the token streams
shallowly: `proc_macro::TokenTree` becomes an inductive with identifier,
punctuation, literal and group constructors; the mutable scan loops become
explicit step functions folded over the token list; every `panic!` becomes an
error value of `ScanError`.
-/

set_option maxRecDepth 16384

namespace StructPath

/-- Shallow embedding of `proc_macro::TokenTree`: identifiers and punctuation
carry their text, a literal carries its `to_string()` source text (quotes
included for string literals), a group carries its inner token stream. -/
inductive TokenTree where
  | ident (s : String)
  | punct (c : Char)
  | lit (s : String)
  | group (ts : List TokenTree)

/-- Each `panic!` site of the source, as an error value. -/
inductive ScanError where
  /-- `Unexpected input for struct path parameters: ...` -/
  | unexpectedInput (t : TokenTree)
  /-- `Unexpected punctuation input for struct path group parameters: ...` -/
  | unexpectedPunct (c : Char)
  /-- `Unexpected input for struct path group parameters: ...` -/
  | unexpectedGroupInput (t : TokenTree)
  /-- `Unexpected comma with empty fields for {name}!` -/
  | emptyFields (name : String)
  /-- `Unexpected comma with empty definitions!` -/
  | emptyDefinitions
  /-- `Wrong options format` -/
  | wrongOptionsFormat
  /-- Rust slice-index panic from the unguarded `lit_str[1..len-1]`. -/
  | sliceIndexFail
  /-- `Unknown case is specified: {case}` -/
  | unknownCase (s : String)
  /-- `Empty struct fields` (paths! output stage) -/
  | emptyStructFields
  /-- `Unexpected empty path definition!` (path! output stage) -/
  | emptyPathDefinition

/-- `Vec::join` / `[T]::join` on strings: empty for `[]`, no trailing separator. -/
def joinSep (sep : String) : List String → String
  | [] => ""
  | [s] => s
  | s :: ss => s ++ sep ++ joinSep sep ss

/-- Split a character list at every occurrence of `c` (Rust `str::split(c)`
on the underlying characters): never returns `[]`, keeps empty pieces. -/
def splitCharList (c : Char) : List Char → List (List Char)
  | [] => [[]]
  | x :: xs =>
    match splitCharList c xs with
    | [] => [[]]
    | y :: ys => if x = c then [] :: y :: ys else (x :: y) :: ys

/-- Rust `field_path.split(c)` as a list of strings. -/
def splitChar (c : Char) (s : String) : List String :=
  (splitCharList c s.data).map String.mk

/-- `HashMap::get(k)` over our insertion-ordered association list. -/
def optGet (m : List (String × String)) (k : String) : Option String :=
  (m.find? (fun p => p.1 == k)).map (fun p => p.2)

/-- `HashMap::insert(k, v)`: at most one binding per key. -/
def optInsert (m : List (String × String)) (k v : String) : List (String × String) :=
  m.filter (fun p => p.1 != k) ++ [(k, v)]

/-- Lowercase every character (ASCII, as the inputs of this crate are). -/
def strLower (s : String) : String := String.mk (s.data.map Char.toLower)

/-- Capitalize a word: first character uppercased, rest lowercased. -/
def capitalizeWord (s : String) : String :=
  match s.data with
  | [] => ""
  | ch :: rest => String.mk (ch.toUpper :: rest.map Char.toLower)

/-- Modelled from the `convert_case` dependency (not part of this repository):
`from_case(Case::Snake)` segments a string at underscores, discarding the
underscores and empty pieces. -/
def snakeWords (s : String) : List String :=
  (splitChar '_' s).filter (fun w => w ≠ "")

/-- Modelled from the `convert_case` dependency: `to_case(Case::Camel)` after
`from_case(Case::Snake)` — first word lowercased, later words capitalized,
no separator. -/
def snakeToCamel (s : String) : String :=
  match snakeWords s with
  | [] => ""
  | w :: ws => strLower w ++ joinSep "" (ws.map capitalizeWord)

/-- Modelled from the `convert_case` dependency: `to_case(Case::Pascal)` after
`from_case(Case::Snake)` — every word capitalized, no separator. -/
def snakeToPascal (s : String) : String :=
  joinSep "" ((snakeWords s).map capitalizeWord)

/-- `apply_options` (src/macro/src/lib.rs:459-482): split the field path on
`.`, case-convert each segment independently when `case` is set (panicking on
an unknown case value), and join with `delim` (default `"."`). -/
def apply_options (options : List (String × String)) (field_path : String) :
    Except ScanError String := do
  let delim := (optGet options "delim").getD "."
  let case := optGet options "case"
  let mapped ← (splitChar '.' field_path).mapM (fun field_name =>
    match case with
    | some case_value =>
      if case_value = "camel" then .ok (snakeToCamel field_name)
      else if case_value = "pascal" then .ok (snakeToPascal field_name)
      else .error (.unknownCase case_value)
    | none => .ok field_name)
  .ok (joinSep delim mapped)

/-- One field-check block of `generate_checks_code_for`
(src/macro/src/lib.rs:439-449), byte for byte including the raw-string
indentation. -/
def checkTemplate (struct_name field_path : String) : String :=
  "\n                \x7b\n                    #[allow(dead_code, unused_variables)]\n                    fn _test_struct_field(test_struct: &" ++
  struct_name ++
  ") \x7b\n                        let _t = &test_struct." ++
  field_path ++
  ";\n                    \x7d\n                \x7d\n            "

/-- `generate_checks_code_for` (src/macro/src/lib.rs:431-457): per struct, the
field blocks joined with a newline, all concatenated in order. -/
def generate_checks_code_for (found_structs : List (String × List String)) : String :=
  found_structs.foldl
    (fun acc p => acc ++ joinSep "\n" (p.2.map (checkTemplate p.1))) ""

/-- One iteration of the `parse_multiple_fields` loop
(src/macro/src/lib.rs:233-270).  The state pairs the open member accumulator
with the field list built so far. -/
def stepGroup (st : Option String × List String) (t : TokenTree) :
    Except ScanError (Option String × List String) :=
  match t with
  | .ident id =>
    match st.1 with
    | some field_path => .ok (some (field_path ++ id), st.2)
    | none => .ok (some id, st.2)
  | .punct c =>
    if c = ',' then
      match st.1 with
      | some field_path => .ok (none, st.2 ++ [field_path])
      | none => .error (.unexpectedPunct ',')
    else if c = '.' then
      match st.1 with
      | some field_path => .ok (some (field_path ++ "."), st.2)
      | none => .error (.unexpectedPunct '.')
    else .error (.unexpectedGroupInput (.punct c))
  | other => .error (.unexpectedGroupInput other)

/-- The flush after the `parse_multiple_fields` loop
(src/macro/src/lib.rs:272-274): a trailing open member is pushed. -/
def groupFinish (st : Option String × List String) : Except ScanError (List String) :=
  match st.1 with
  | some field_path => .ok (st.2 ++ [field_path])
  | none => .ok st.2

/-- `parse_multiple_fields` (src/macro/src/lib.rs:229-275): scan the tokens
inside a `{...}` group, pushing comma-separated (possibly dotted) members onto
the caller's field list; a trailing open member is flushed after the loop. -/
def parse_multiple_fields (group_stream : List TokenTree)
    (found_struct_fields : List String) : Except ScanError (List String) :=
  List.foldlM stepGroup (none, found_struct_fields) group_stream >>= groupFinish

/-- The mutable locals of the `paths` proc-macro loop
(src/macro/src/lib.rs:55-69). -/
structure PathsState where
  currentStructName : Option String
  currentStructFields : List String
  openedStruct : Bool
  colonsCounter : Nat
  optionsOpened : Bool
  currentFieldPath : Option String
  currentOptionName : Option String
  expectOptionValue : Bool
  options : List (String × String)
  foundStructs : List (String × List String)

/-- Initial state of the `paths` loop. -/
def initPathsState : PathsState :=
  { currentStructName := none, currentStructFields := [], openedStruct := false,
    colonsCounter := 0, optionsOpened := false, currentFieldPath := none,
    currentOptionName := none, expectOptionValue := false, options := [],
    foundStructs := [] }

/-- One iteration of the `paths` scan loop (src/macro/src/lib.rs:71-183),
arm for arm in source order; each `panic!` is an error. -/
def stepPaths (st : PathsState) (t : TokenTree) : Except ScanError PathsState :=
  match t with
  | .ident id =>
    if st.currentStructName.isNone then
      .ok { st with currentStructName := some id }
    else if st.openedStruct then
      .ok { st with colonsCounter := 0,
                    currentFieldPath :=
                      some (match st.currentFieldPath with
                            | some field_path => field_path ++ id
                            | none => id) }
    else if st.optionsOpened ∧ ¬ st.expectOptionValue then
      .ok { st with currentOptionName := some id }
    else if st.optionsOpened ∧ st.expectOptionValue then
      match st.currentOptionName with
      | some option_name =>
        .ok { st with expectOptionValue := false, currentOptionName := none,
                      options := optInsert st.options option_name id }
      | none => .error .wrongOptionsFormat
    else .error (.unexpectedInput (.ident id))
  | .punct ':' =>
    if st.currentStructName.isSome ∧ ¬ st.openedStruct ∧ st.colonsCounter < 2 then
      .ok { st with colonsCounter := st.colonsCounter + 1,
                    openedStruct :=
                      if st.colonsCounter + 1 > 1 then true else st.openedStruct }
    else if st.currentStructName.isSome ∧ st.openedStruct ∧ st.colonsCounter < 2 then
      match st.currentFieldPath with
      | some field_path =>
        .ok { st with colonsCounter := st.colonsCounter + 1, openedStruct := false,
                      currentFieldPath := none,
                      currentStructName :=
                        st.currentStructName.map (fun n => n ++ "::" ++ field_path) }
      | none =>
        .ok { st with colonsCounter := st.colonsCounter + 1, openedStruct := false }
    else .error (.unexpectedInput (.punct ':'))
  | .punct '.' =>
    if st.openedStruct then
      match st.currentFieldPath with
      | some field_path =>
        .ok { st with currentFieldPath := some (field_path ++ ".") }
      | none => .error (.unexpectedPunct '.')
    else .error (.unexpectedInput (.punct '.'))
  | .group ts =>
    if st.openedStruct ∧ st.currentFieldPath.isNone then
      match parse_multiple_fields ts st.currentStructFields with
      | .ok fields => .ok { st with currentStructFields := fields }
      | .error e => .error e
    else .error (.unexpectedInput (.group ts))
  | .punct ',' =>
    if ¬ st.optionsOpened ∧ st.openedStruct then
      match st.currentStructName with
      | some struct_name =>
        let fields := st.currentStructFields ++
          (match st.currentFieldPath with
           | some field_path => [field_path]
           | none => [])
        if fields ≠ [] then
          .ok { st with openedStruct := false, colonsCounter := 0,
                        currentStructName := none, currentFieldPath := none,
                        currentStructFields := [],
                        foundStructs := st.foundStructs ++ [(struct_name, fields)] }
        else .error (.emptyFields struct_name)
      | none => .error .emptyDefinitions
    else if st.optionsOpened then
      .ok { st with expectOptionValue := false }
    else .error (.unexpectedInput (.punct ','))
  | .punct ';' =>
    if st.openedStruct ∧ ¬ st.optionsOpened then
      .ok { st with optionsOpened := true, openedStruct := false }
    else .error (.unexpectedInput (.punct ';'))
  | .punct '=' =>
    if st.optionsOpened then
      .ok { st with expectOptionValue := true }
    else .error (.unexpectedInput (.punct '='))
  | .punct c => .error (.unexpectedInput (.punct c))
  | .lit s =>
    if st.optionsOpened ∧ st.expectOptionValue then
      match st.currentOptionName with
      | some option_name =>
        if 2 ≤ s.length then
          .ok { st with expectOptionValue := false, currentOptionName := none,
                        options := optInsert st.options option_name
                          ((s.drop 1).dropRight 1) }
        else .error .sliceIndexFail
      | none => .error .wrongOptionsFormat
    else .error (.unexpectedInput (.lit s))

/-- The `paths` scan loop folded over the whole token stream. -/
def pathsScan (ts : List TokenTree) : Except ScanError PathsState :=
  List.foldlM stepPaths initPathsState ts

/-- The commits performed by `paths` after its loop
(src/macro/src/lib.rs:185-200): flush the open field path and the open struct
entry, failing as the source does. -/
def pathsFinish (st : PathsState) :
    Except ScanError (List (String × List String) × List (String × String)) :=
  let fields := st.currentStructFields ++
    (match st.currentFieldPath with
     | some field_path => [field_path]
     | none => [])
  match st.currentStructName with
  | some struct_name =>
    if fields ≠ [] then .ok (st.foundStructs ++ [(struct_name, fields)], st.options)
    else .error (.emptyFields struct_name)
  | none => .error .emptyDefinitions

/-- Full parse of a `paths!` token stream: the committed struct entries and
the options map. -/
def pathsParse (ts : List TokenTree) :
    Except ScanError (List (String × List String) × List (String × String)) := do
  let st ← pathsScan ts
  pathsFinish st

/-- The `paths` output loop (src/macro/src/lib.rs:204-214): every field path of
every entry in order, formatted only when the options map is non-empty, then
quoted. -/
def pathsAllFinalFields (found_structs : List (String × List String))
    (options : List (String × String)) : Except ScanError (List String) :=
  ((found_structs.map (fun p => p.2)).flatten).mapM (fun field_path => do
    let final ← if options.isEmpty then .ok field_path
                else apply_options options field_path
    .ok ("\"" ++ final ++ "\""))

/-- The full `paths` proc-macro (src/macro/src/lib.rs:54-227) as the generated
source text: checks block followed by the array literal. -/
def paths (ts : List TokenTree) : Except ScanError String := do
  let (found_structs, options) ← pathsParse ts
  let all_check_functions := generate_checks_code_for found_structs
  let all_final_fields ← pathsAllFinalFields found_structs options
  if all_final_fields ≠ [] then
    .ok ("\x7b" ++ all_check_functions ++ "\n[" ++
         joinSep "," all_final_fields ++ "]\x7d")
  else .error .emptyStructFields

/-- The mutable locals of the `path` proc-macro loop
(src/macro/src/lib.rs:278-292). -/
structure PathState where
  currentStructName : Option String
  openedStruct : Bool
  colonsCounter : Nat
  optionsOpened : Bool
  currentFieldPath : Option String
  currentFullFieldPath : Option String
  currentOptionName : Option String
  expectOptionValue : Bool
  options : List (String × String)
  foundStructs : List (String × List String)

/-- Initial state of the `path` loop. -/
def initPathState : PathState :=
  { currentStructName := none, openedStruct := false, colonsCounter := 0,
    optionsOpened := false, currentFieldPath := none,
    currentFullFieldPath := none, currentOptionName := none,
    expectOptionValue := false, options := [], foundStructs := [] }

/-- One iteration of the `path` scan loop (src/macro/src/lib.rs:294-406).
It differs from `stepPaths` exactly where the source differs: there is no
group arm, and the comma arm grows a single dotted full path instead of a
sibling list. -/
def stepPath (st : PathState) (t : TokenTree) : Except ScanError PathState :=
  match t with
  | .ident id =>
    if st.currentStructName.isNone then
      .ok { st with currentStructName := some id }
    else if st.openedStruct then
      .ok { st with colonsCounter := 0,
                    currentFieldPath :=
                      some (match st.currentFieldPath with
                            | some field_path => field_path ++ id
                            | none => id) }
    else if st.optionsOpened ∧ ¬ st.expectOptionValue then
      .ok { st with currentOptionName := some id }
    else if st.optionsOpened ∧ st.expectOptionValue then
      match st.currentOptionName with
      | some option_name =>
        .ok { st with expectOptionValue := false, currentOptionName := none,
                      options := optInsert st.options option_name id }
      | none => .error .wrongOptionsFormat
    else .error (.unexpectedInput (.ident id))
  | .punct ':' =>
    if st.currentStructName.isSome ∧ ¬ st.openedStruct ∧ st.colonsCounter < 2 then
      .ok { st with colonsCounter := st.colonsCounter + 1,
                    openedStruct :=
                      if st.colonsCounter + 1 > 1 then true else st.openedStruct }
    else if st.currentStructName.isSome ∧ st.openedStruct ∧ st.colonsCounter < 2 then
      match st.currentFieldPath with
      | some field_path =>
        .ok { st with colonsCounter := st.colonsCounter + 1, openedStruct := false,
                      currentFieldPath := none,
                      currentStructName :=
                        st.currentStructName.map (fun n => n ++ "::" ++ field_path) }
      | none =>
        .ok { st with colonsCounter := st.colonsCounter + 1, openedStruct := false }
    else .error (.unexpectedInput (.punct ':'))
  | .punct '.' =>
    if st.openedStruct then
      match st.currentFieldPath with
      | some field_path =>
        .ok { st with currentFieldPath := some (field_path ++ ".") }
      | none => .error (.unexpectedPunct '.')
    else .error (.unexpectedInput (.punct '.'))
  | .punct ',' =>
    if ¬ st.optionsOpened ∧ st.openedStruct then
      match st.currentStructName with
      | some struct_name =>
        match st.currentFieldPath with
        | some field_path =>
          .ok { st with openedStruct := false, colonsCounter := 0,
                        currentStructName := none, currentFieldPath := none,
                        foundStructs := st.foundStructs ++ [(struct_name, [field_path])],
                        currentFullFieldPath :=
                          some (match st.currentFullFieldPath with
                                | some full => full ++ "." ++ field_path
                                | none => field_path) }
        | none => .error (.emptyFields struct_name)
      | none => .error .emptyDefinitions
    else if st.optionsOpened then
      .ok { st with expectOptionValue := false }
    else .error (.unexpectedInput (.punct ','))
  | .punct ';' =>
    if st.openedStruct ∧ ¬ st.optionsOpened then
      .ok { st with optionsOpened := true, openedStruct := false }
    else .error (.unexpectedInput (.punct ';'))
  | .punct '=' =>
    if st.optionsOpened then
      .ok { st with expectOptionValue := true }
    else .error (.unexpectedInput (.punct '='))
  | .punct c => .error (.unexpectedInput (.punct c))
  | .lit s =>
    if st.optionsOpened ∧ st.expectOptionValue then
      match st.currentOptionName with
      | some option_name =>
        if 2 ≤ s.length then
          .ok { st with expectOptionValue := false, currentOptionName := none,
                        options := optInsert st.options option_name
                          ((s.drop 1).dropRight 1) }
        else .error .sliceIndexFail
      | none => .error .wrongOptionsFormat
    else .error (.unexpectedInput (.lit s))
  | .group ts => .error (.unexpectedInput (.group ts))

/-- The `path` scan loop folded over the whole token stream. -/
def pathScan (ts : List TokenTree) : Except ScanError PathState :=
  List.foldlM stepPath initPathState ts

/-- The commits performed by `path` after its loop
(src/macro/src/lib.rs:408-428): flush the open entry into `found_structs` and
the full path, then require a non-empty full path. -/
def pathFinish (st : PathState) :
    Except ScanError (List (String × List String) × String × List (String × String)) :=
  let (found_structs, full) :=
    match st.currentStructName, st.currentFieldPath with
    | some struct_name, some field_path =>
      (st.foundStructs ++ [(struct_name, [field_path])],
       some (match st.currentFullFieldPath with
             | some full => full ++ "." ++ field_path
             | none => field_path))
    | _, _ => (st.foundStructs, st.currentFullFieldPath)
  match full with
  | some full_field_path => .ok (found_structs, full_field_path, st.options)
  | none => .error .emptyPathDefinition

/-- Full parse of a `path!` token stream: entries, accumulated full field
path, and options. -/
def pathParse (ts : List TokenTree) :
    Except ScanError (List (String × List String) × String × List (String × String)) := do
  let st ← pathScan ts
  pathFinish st

/-- The full `path` proc-macro (src/macro/src/lib.rs:277-429) as the generated
source text: checks block followed by the single string literal.  Unlike
`paths`, `apply_options` is applied unconditionally. -/
def path (ts : List TokenTree) : Except ScanError String := do
  let (found_structs, full_field_path, options) ← pathParse ts
  let all_check_functions := generate_checks_code_for found_structs
  let final_field_path ← apply_options options full_field_path
  .ok ("\x7b" ++ all_check_functions ++ "\n\"" ++ final_field_path ++ "\"\x7d")

/-- Token stream of a dotted identifier chain `s1.s2...sn`. -/
def dottedToks : List String → List TokenTree
  | [] => []
  | [s] => [.ident s]
  | s :: ss => .ident s :: .punct '.' :: dottedToks ss

/-- Token stream of one struct entry `Name::s1.s2...sn`. -/
def entryToks (name : String) (segs : List String) : List TokenTree :=
  .ident name :: .punct ':' :: .punct ':' :: dottedToks segs

/-- Token stream of comma-separated struct entries. -/
def entriesToks : List (String × List String) → List TokenTree
  | [] => []
  | [e] => entryToks e.1 e.2
  | e :: es => entryToks e.1 e.2 ++ .punct ',' :: entriesToks es

/-- Token stream of the comma-separated members inside a `{...}` group, the
last member not followed by a comma. -/
def groupMemberToks : List (List String) → List TokenTree
  | [] => []
  | [m] => dottedToks m
  | m :: ms => dottedToks m ++ .punct ',' :: groupMemberToks ms

/-! ### Split/join infrastructure -/

/-- `Vec::join` at the character-list level, separator a single character. -/
def joinCharList (c : Char) : List (List Char) → List Char
  | [] => []
  | [l] => l
  | l :: ls => l ++ c :: joinCharList c ls

theorem splitCharList_ne_nil (c : Char) (l : List Char) : splitCharList c l ≠ [] := by
  cases l with
  | nil => simp [splitCharList]
  | cons x xs =>
    simp only [splitCharList]
    cases h : splitCharList c xs with
    | nil => simp
    | cons y ys =>
      by_cases hx : x = c <;> simp [hx]

theorem joinCharList_splitCharList (c : Char) (l : List Char) :
    joinCharList c (splitCharList c l) = l := by
  induction l with
  | nil => rfl
  | cons x xs ih =>
    simp only [splitCharList]
    cases h : splitCharList c xs with
    | nil => exact absurd h (splitCharList_ne_nil c xs)
    | cons y ys =>
      rw [h] at ih
      by_cases hx : x = c
      · subst hx
        simp only [if_pos rfl]
        cases ys with
        | nil => simpa [joinCharList] using ih
        | cons z zs => simpa [joinCharList] using ih
      · simp only [if_neg hx]
        cases ys with
        | nil => simpa [joinCharList] using ih
        | cons z zs => simpa [joinCharList, List.cons_append] using ih

theorem strMk_data (s : String) : String.mk s.data = s := by
  cases s; rfl

theorem strMk_append (a b : List Char) :
    String.mk a ++ String.mk b = String.mk (a ++ b) := rfl

theorem joinSep_map_mk (c : Char) (ls : List (List Char)) :
    joinSep (String.mk [c]) (ls.map String.mk) = String.mk (joinCharList c ls) := by
  induction ls with
  | nil => rfl
  | cons l ls ih =>
    cases ls with
    | nil => rfl
    | cons l' ls' =>
      simp only [List.map_cons, joinSep, joinCharList] at *
      rw [ih, strMk_append, strMk_append]
      simp

theorem joinSep_splitChar_dot (s : String) :
    joinSep "." (splitChar '.' s) = s := by
  have h : ("." : String) = String.mk ['.'] := rfl
  rw [splitChar, h, joinSep_map_mk, joinCharList_splitCharList, strMk_data]

theorem splitCharList_no_sep (c : Char) (a : List Char) (h : c ∉ a) :
    splitCharList c a = [a] := by
  induction a with
  | nil => rfl
  | cons x xs ih =>
    simp only [List.mem_cons, not_or] at h
    simp only [splitCharList, ih h.2]
    rw [if_neg (fun hx => h.1 hx.symm)]

theorem splitCharList_append_sep (c : Char) (a b : List Char) (h : c ∉ a) :
    splitCharList c (a ++ c :: b) = a :: splitCharList c b := by
  induction a with
  | nil =>
    simp only [List.nil_append, splitCharList]
    cases hb : splitCharList c b with
    | nil => exact absurd hb (splitCharList_ne_nil c b)
    | cons y ys => simp
  | cons x xs ih =>
    simp only [List.mem_cons, not_or] at h
    have ih' := ih h.2
    simp only [List.cons_append, splitCharList, List.append_eq, ih']
    rw [if_neg (fun hx => h.1 hx.symm)]

theorem splitCharList_joinCharList (c : Char) (pieces : List (List Char))
    (hne : pieces ≠ []) (hall : ∀ p ∈ pieces, c ∉ p) :
    splitCharList c (joinCharList c pieces) = pieces := by
  induction pieces with
  | nil => exact absurd rfl hne
  | cons p ps ih =>
    cases ps with
    | nil =>
      exact splitCharList_no_sep c p (hall p (List.mem_cons_self p []))
    | cons q qs =>
      simp only [joinCharList]
      rw [splitCharList_append_sep c p _ (hall p (List.mem_cons_self p _))]
      rw [ih (by simp) (fun r hr => hall r (List.mem_cons_of_mem p hr))]

theorem map_mk_map_data (segs : List String) :
    (segs.map String.data).map String.mk = segs := by
  induction segs with
  | nil => rfl
  | cons s ss ih => simp only [List.map_cons, ih, strMk_data]

theorem joinSep_eq_mk (c : Char) (segs : List String) :
    joinSep (String.mk [c]) segs = String.mk (joinCharList c (segs.map String.data)) := by
  conv_lhs => rw [← map_mk_map_data segs]
  exact joinSep_map_mk c (segs.map String.data)

theorem splitChar_joinSep_dot (segs : List String) (hne : segs ≠ [])
    (hall : ∀ s ∈ segs, '.' ∉ s.data) :
    splitChar '.' (joinSep "." segs) = segs := by
  have h : ("." : String) = String.mk ['.'] := rfl
  rw [h, joinSep_eq_mk, splitChar]
  rw [splitCharList_joinCharList '.' (segs.map String.data)
        (by simpa using hne)
        (by intro p hp
            obtain ⟨s, hs, rfl⟩ := List.mem_map.mp hp
            exact hall s hs)]
  exact map_mk_map_data segs

/-! ### Formatter lemmas -/

theorem mapM_ok {α β : Type} (f : α → β) (l : List α) :
    (l.mapM (fun a => (Except.ok (f a) : Except ScanError β))) = Except.ok (l.map f) := by
  induction l with
  | nil => rfl
  | cons a l ih => rw [List.mapM_cons, ih]; rfl

theorem mapM_ok_id (l : List String) :
    (l.mapM (fun s => (Except.ok s : Except ScanError String))) = Except.ok l := by
  induction l with
  | nil => rfl
  | cons a l ih => rw [List.mapM_cons, ih]; rfl

theorem mapM_error {α β : Type} (e : ScanError) (l : List α) (hl : l ≠ []) :
    (l.mapM (fun _ => (Except.error e : Except ScanError β))) = Except.error e := by
  cases l with
  | nil => exact absurd rfl hl
  | cons a l => rw [List.mapM_cons]; rfl

theorem splitChar_ne_nil (c : Char) (s : String) : splitChar c s ≠ [] := by
  simp [splitChar, splitCharList_ne_nil]

theorem apply_options_no_case (options : List (String × String)) (field_path : String)
    (h : optGet options "case" = none) :
    apply_options options field_path =
      .ok (joinSep ((optGet options "delim").getD ".") (splitChar '.' field_path)) := by
  simp only [apply_options, h]
  rw [mapM_ok_id]
  rfl

theorem apply_options_camel (options : List (String × String)) (field_path : String)
    (h : optGet options "case" = some "camel") :
    apply_options options field_path =
      .ok (joinSep ((optGet options "delim").getD ".")
            ((splitChar '.' field_path).map snakeToCamel)) := by
  simp only [apply_options, h, reduceIte]
  rw [mapM_ok snakeToCamel]
  rfl

theorem apply_options_nil (field_path : String) :
    apply_options [] field_path = .ok field_path := by
  rw [apply_options_no_case [] field_path rfl,
      show (optGet [] "delim") = none from rfl]
  rw [show (Option.getD (none : Option String) ".") = "." from rfl]
  rw [joinSep_splitChar_dot]

theorem apply_options_delim_dot (field_path : String) :
    apply_options [("delim", ".")] field_path = .ok field_path := by
  rw [apply_options_no_case [("delim", ".")] field_path rfl,
      show (optGet [("delim", ".")] "delim") = some "." from rfl]
  rw [show (Option.getD (some ".") ".") = "." from rfl]
  rw [joinSep_splitChar_dot]

theorem apply_options_camel_slash (field_path : String) :
    apply_options [("delim", "/"), ("case", "camel")] field_path =
      .ok (joinSep "/" ((splitChar '.' field_path).map snakeToCamel)) := by
  rw [apply_options_camel [("delim", "/"), ("case", "camel")] field_path rfl,
      show (optGet [("delim", "/"), ("case", "camel")] "delim") = some "/" from rfl]
  rfl

theorem apply_options_camel_default_delim (field_path : String) :
    apply_options [("case", "camel")] field_path =
      .ok (joinSep "." ((splitChar '.' field_path).map snakeToCamel)) := by
  rw [apply_options_camel [("case", "camel")] field_path rfl,
      show (optGet [("case", "camel")] "delim") = none from rfl]
  rfl

theorem apply_options_unknown_case (options : List (String × String))
    (case_value field_path : String)
    (hcase : optGet options "case" = some case_value)
    (hc1 : case_value ≠ "camel") (hc2 : case_value ≠ "pascal") :
    apply_options options field_path = .error (.unknownCase case_value) := by
  have hfun : ∀ field_name : String,
      (if case_value = "camel" then Except.ok (snakeToCamel field_name)
       else if case_value = "pascal" then Except.ok (snakeToPascal field_name)
       else (Except.error (ScanError.unknownCase case_value) : Except ScanError String)) =
      (Except.error (ScanError.unknownCase case_value) : Except ScanError String) := by
    intro field_name
    rw [if_neg hc1, if_neg hc2]
  simp only [apply_options, hcase, hfun]
  rw [mapM_error _ _ (splitChar_ne_nil '.' field_path)]
  rfl

/-! ### Scanner step lemmas, `path` machine -/

/-- Append to an optional accumulator as the ident arms do. -/
def optPre : Option String → String → String
  | some p, x => p ++ x
  | none, x => x

/-- Extend an optional full path with `.` as the comma arms of `path` do. -/
def optDot : Option String → String → String
  | some f, x => f ++ "." ++ x
  | none, x => x

theorem ok_bind {α β : Type} (a : α) (f : α → Except ScanError β) :
    (Except.ok a >>= f) = f a := rfl

theorem stepPath_ident_fresh (st : PathState) (s : String)
    (h : st.currentStructName = none) :
    stepPath st (.ident s) = .ok { st with currentStructName := some s } := by
  simp [stepPath, h]

theorem stepPath_ident_open (st : PathState) (n s : String)
    (hn : st.currentStructName = some n) (ho : st.openedStruct = true) :
    stepPath st (.ident s) =
      .ok { st with colonsCounter := 0,
                    currentFieldPath := some (optPre st.currentFieldPath s) } := by
  cases hf : st.currentFieldPath <;> simp [stepPath, hn, ho, hf, optPre]

theorem stepPath_colon_open1 (st : PathState) (n : String)
    (hn : st.currentStructName = some n) (ho : st.openedStruct = false)
    (hc : st.colonsCounter = 0) :
    stepPath st (.punct ':') = .ok { st with colonsCounter := 1 } := by
  simp [stepPath, hn, ho, hc]

theorem stepPath_colon_open2 (st : PathState) (n : String)
    (hn : st.currentStructName = some n) (ho : st.openedStruct = false)
    (hc : st.colonsCounter = 1) :
    stepPath st (.punct ':') =
      .ok { st with colonsCounter := 2, openedStruct := true } := by
  simp [stepPath, hn, ho, hc]

theorem stepPath_colon_fold (st : PathState) (n p : String)
    (hn : st.currentStructName = some n) (ho : st.openedStruct = true)
    (hc : st.colonsCounter < 2) (hf : st.currentFieldPath = some p) :
    stepPath st (.punct ':') =
      .ok { st with colonsCounter := st.colonsCounter + 1, openedStruct := false,
                    currentFieldPath := none,
                    currentStructName := some (n ++ "::" ++ p) } := by
  simp [stepPath, hn, ho, hc, hf]

theorem stepPath_dot (st : PathState) (p : String)
    (ho : st.openedStruct = true) (hf : st.currentFieldPath = some p) :
    stepPath st (.punct '.') =
      .ok { st with currentFieldPath := some (p ++ ".") } := by
  simp [stepPath, ho, hf]

theorem stepPath_comma (st : PathState) (n p : String)
    (hoo : st.optionsOpened = false) (ho : st.openedStruct = true)
    (hn : st.currentStructName = some n) (hf : st.currentFieldPath = some p) :
    stepPath st (.punct ',') =
      .ok { st with openedStruct := false, colonsCounter := 0,
                    currentStructName := none, currentFieldPath := none,
                    foundStructs := st.foundStructs ++ [(n, [p])],
                    currentFullFieldPath :=
                      some (optDot st.currentFullFieldPath p) } := by
  cases hful : st.currentFullFieldPath <;> simp [stepPath, hoo, ho, hn, hf, hful, optDot]

theorem joinSep_cons₂ (sep s s' : String) (ss : List String) :
    joinSep sep (s :: s' :: ss) = (s ++ sep) ++ joinSep sep (s' :: ss) := rfl

theorem joinSep_singleton (sep s : String) : joinSep sep [s] = s := rfl

theorem foldPath_dotted (segs : List String) (hne : segs ≠ []) :
    ∀ (n : String) (cc : Nat) (oo : Bool) (fp ful opn : Option String) (ev : Bool)
      (os : List (String × String)) (fs : List (String × List String)),
    List.foldlM stepPath ⟨some n, true, cc, oo, fp, ful, opn, ev, os, fs⟩
        (dottedToks segs) =
      .ok ⟨some n, true, 0, oo, some (optPre fp (joinSep "." segs)), ful, opn, ev, os, fs⟩ := by
  induction segs with
  | nil => exact absurd rfl hne
  | cons s ss ih =>
    intro n cc oo fp ful opn ev os fs
    cases ss with
    | nil => cases fp <;> rfl
    | cons s' ss' =>
      have step2 :
          List.foldlM stepPath ⟨some n, true, cc, oo, fp, ful, opn, ev, os, fs⟩
              (dottedToks (s :: s' :: ss')) =
            List.foldlM stepPath
              ⟨some n, true, 0, oo, some (optPre fp s ++ "."), ful, opn, ev, os, fs⟩
              (dottedToks (s' :: ss')) := by
        cases fp <;> rfl
      rw [step2, ih (by simp) n 0 oo (some (optPre fp s ++ ".")) ful opn ev os fs]
      cases fp <;> simp [optPre, joinSep_cons₂, String.append_assoc]

theorem foldPath_entry (name : String) (segs : List String) (hne : segs ≠ [])
    (oo : Bool) (ful opn : Option String) (ev : Bool)
    (os : List (String × String)) (fs : List (String × List String)) :
    List.foldlM stepPath ⟨none, false, 0, oo, none, ful, opn, ev, os, fs⟩
        (entryToks name segs) =
      .ok ⟨some name, true, 0, oo, some (joinSep "." segs), ful, opn, ev, os, fs⟩ := by
  have step3 :
      List.foldlM stepPath ⟨none, false, 0, oo, none, ful, opn, ev, os, fs⟩
          (entryToks name segs) =
        List.foldlM stepPath ⟨some name, true, 2, oo, none, ful, opn, ev, os, fs⟩
          (dottedToks segs) := rfl
  rw [step3, foldPath_dotted segs hne name 2 oo none ful opn ev os fs]
  rfl

theorem optDot_some_assoc (f : Option String) (x y : String) :
    optDot (some (optDot f x)) y = optDot f ((x ++ ".") ++ y) := by
  cases f <;> simp [optDot, String.append_assoc]

theorem pathScanFinish_entries (entries : List (String × List String))
    (hne : entries ≠ []) (hsegs : ∀ e ∈ entries, e.2 ≠ []) :
    ∀ (ful opn : Option String) (ev : Bool) (os : List (String × String))
      (fs : List (String × List String)),
    (List.foldlM stepPath ⟨none, false, 0, false, none, ful, opn, ev, os, fs⟩
        (entriesToks entries) >>= pathFinish) =
      .ok (fs ++ entries.map (fun e => (e.1, [joinSep "." e.2])),
           optDot ful (joinSep "." (entries.map (fun e => joinSep "." e.2))),
           os) := by
  induction entries with
  | nil => exact absurd rfl hne
  | cons e es ih =>
    intro ful opn ev os fs
    cases es with
    | nil =>
      rw [show entriesToks [e] = entryToks e.1 e.2 from rfl,
          foldPath_entry e.1 e.2 (hsegs e (List.mem_cons_self e []))
            false ful opn ev os fs, ok_bind]
      cases ful <;> simp [pathFinish, optDot, joinSep_singleton]
    | cons e' es' =>
      rw [show entriesToks (e :: e' :: es') =
            entryToks e.1 e.2 ++ .punct ',' :: entriesToks (e' :: es') from rfl,
          List.foldlM_append,
          foldPath_entry e.1 e.2 (hsegs e (List.mem_cons_self e _))
            false ful opn ev os fs, ok_bind, List.foldlM_cons]
      have stepComma :
          stepPath ⟨some e.1, true, 0, false, some (joinSep "." e.2), ful, opn, ev, os, fs⟩
              (.punct ',') =
            .ok ⟨none, false, 0, false, none, some (optDot ful (joinSep "." e.2)),
                 opn, ev, os, fs ++ [(e.1, [joinSep "." e.2])]⟩ := by
        cases ful <;> rfl
      rw [stepComma, ok_bind,
          ih (by simp) (fun x hx => hsegs x (List.mem_cons_of_mem e hx))
            (some (optDot ful (joinSep "." e.2))) opn ev os
            (fs ++ [(e.1, [joinSep "." e.2])])]
      rw [optDot_some_assoc, List.append_assoc]
      rfl

/-! ### Scanner fold lemmas, `paths` machine and group sub-parser -/

theorem foldPaths_dotted (segs : List String) (hne : segs ≠ []) :
    ∀ (n : String) (sf : List String) (cc : Nat) (oo : Bool) (fp opn : Option String)
      (ev : Bool) (os : List (String × String)) (fs : List (String × List String)),
    List.foldlM stepPaths ⟨some n, sf, true, cc, oo, fp, opn, ev, os, fs⟩
        (dottedToks segs) =
      .ok ⟨some n, sf, true, 0, oo, some (optPre fp (joinSep "." segs)), opn, ev, os, fs⟩ := by
  induction segs with
  | nil => exact absurd rfl hne
  | cons s ss ih =>
    intro n sf cc oo fp opn ev os fs
    cases ss with
    | nil => cases fp <;> rfl
    | cons s' ss' =>
      have step2 :
          List.foldlM stepPaths ⟨some n, sf, true, cc, oo, fp, opn, ev, os, fs⟩
              (dottedToks (s :: s' :: ss')) =
            List.foldlM stepPaths
              ⟨some n, sf, true, 0, oo, some (optPre fp s ++ "."), opn, ev, os, fs⟩
              (dottedToks (s' :: ss')) := by
        cases fp <;> rfl
      rw [step2, ih (by simp) n sf 0 oo (some (optPre fp s ++ ".")) opn ev os fs]
      cases fp <;> simp [optPre, joinSep_cons₂, String.append_assoc]

theorem foldPaths_entry (name : String) (segs : List String) (hne : segs ≠ [])
    (sf : List String) (oo : Bool) (opn : Option String) (ev : Bool)
    (os : List (String × String)) (fs : List (String × List String)) :
    List.foldlM stepPaths ⟨none, sf, false, 0, oo, none, opn, ev, os, fs⟩
        (entryToks name segs) =
      .ok ⟨some name, sf, true, 0, oo, some (joinSep "." segs), opn, ev, os, fs⟩ := by
  have step3 :
      List.foldlM stepPaths ⟨none, sf, false, 0, oo, none, opn, ev, os, fs⟩
          (entryToks name segs) =
        List.foldlM stepPaths ⟨some name, sf, true, 2, oo, none, opn, ev, os, fs⟩
          (dottedToks segs) := rfl
  rw [step3, foldPaths_dotted segs hne name sf 2 oo none opn ev os fs]
  rfl

theorem pathsScanFinish_entries (entries : List (String × List String))
    (hne : entries ≠ []) (hsegs : ∀ e ∈ entries, e.2 ≠ []) :
    ∀ (opn : Option String) (ev : Bool) (os : List (String × String))
      (fs : List (String × List String)),
    (List.foldlM stepPaths ⟨none, [], false, 0, false, none, opn, ev, os, fs⟩
        (entriesToks entries) >>= pathsFinish) =
      .ok (fs ++ entries.map (fun e => (e.1, [joinSep "." e.2])), os) := by
  induction entries with
  | nil => exact absurd rfl hne
  | cons e es ih =>
    intro opn ev os fs
    cases es with
    | nil =>
      rw [show entriesToks [e] = entryToks e.1 e.2 from rfl,
          foldPaths_entry e.1 e.2 (hsegs e (List.mem_cons_self e []))
            [] false opn ev os fs, ok_bind]
      rfl
    | cons e' es' =>
      rw [show entriesToks (e :: e' :: es') =
            entryToks e.1 e.2 ++ .punct ',' :: entriesToks (e' :: es') from rfl,
          List.foldlM_append,
          foldPaths_entry e.1 e.2 (hsegs e (List.mem_cons_self e _))
            [] false opn ev os fs, ok_bind, List.foldlM_cons]
      have stepComma :
          stepPaths ⟨some e.1, [], true, 0, false, some (joinSep "." e.2),
              opn, ev, os, fs⟩ (.punct ',') =
            .ok ⟨none, [], false, 0, false, none, opn, ev, os,
                 fs ++ [(e.1, [joinSep "." e.2])]⟩ := rfl
      rw [stepComma, ok_bind,
          ih (by simp) (fun x hx => hsegs x (List.mem_cons_of_mem e hx))
            opn ev os (fs ++ [(e.1, [joinSep "." e.2])])]
      rw [List.append_assoc]
      rfl

theorem foldGroup_dotted (segs : List String) (hne : segs ≠ []) :
    ∀ (cur : Option String) (found : List String),
    List.foldlM stepGroup (cur, found) (dottedToks segs) =
      .ok (some (optPre cur (joinSep "." segs)), found) := by
  induction segs with
  | nil => exact absurd rfl hne
  | cons s ss ih =>
    intro cur found
    cases ss with
    | nil => cases cur <;> rfl
    | cons s' ss' =>
      have step2 :
          List.foldlM stepGroup (cur, found) (dottedToks (s :: s' :: ss')) =
            List.foldlM stepGroup (some (optPre cur s ++ "."), found)
              (dottedToks (s' :: ss')) := by
        cases cur <;> rfl
      rw [step2, ih (by simp) (some (optPre cur s ++ ".")) found]
      cases cur <;> simp [optPre, joinSep_cons₂, String.append_assoc]

theorem parse_multiple_fields_members (members : List (List String))
    (hne : members ≠ []) (hall : ∀ m ∈ members, m ≠ []) :
    ∀ acc : List String,
    parse_multiple_fields (groupMemberToks members) acc =
      .ok (acc ++ members.map (joinSep ".")) := by
  induction members with
  | nil => exact absurd rfl hne
  | cons m ms ih =>
    intro acc
    cases ms with
    | nil =>
      rw [show groupMemberToks [m] = dottedToks m from rfl, parse_multiple_fields,
          foldGroup_dotted m (hall m (List.mem_cons_self m [])) none acc, ok_bind]
      rfl
    | cons m' ms' =>
      rw [parse_multiple_fields,
          show groupMemberToks (m :: m' :: ms') =
            dottedToks m ++ .punct ',' :: groupMemberToks (m' :: ms') from rfl,
          List.foldlM_append,
          foldGroup_dotted m (hall m (List.mem_cons_self m _)) none acc,
          ok_bind, List.foldlM_cons,
          show stepGroup (some (optPre none (joinSep "." m)), acc) (.punct ',') =
            .ok (none, acc ++ [optPre none (joinSep "." m)]) from rfl,
          ok_bind]
      have h2 := ih (by simp) (fun x hx => hall x (List.mem_cons_of_mem m hx))
        (acc ++ [optPre none (joinSep "." m)])
      rw [parse_multiple_fields] at h2
      rw [h2, List.append_assoc]
      rfl

/-! ### Concrete token streams -/

/-- Tokens of `a::b::Type::field`. -/
def toksRefFold : List TokenTree :=
  [.ident "a", .punct ':', .punct ':', .ident "b", .punct ':', .punct ':',
   .ident "Type", .punct ':', .punct ':', .ident "field"]

/-- Tokens of `Parent::value_child.child_value_str; delim="/", case="camel"`. -/
def toksDelimCamel : List TokenTree :=
  [.ident "Parent", .punct ':', .punct ':', .ident "value_child", .punct '.',
   .ident "child_value_str", .punct ';', .ident "delim", .punct '=', .lit "\"/\"",
   .punct ',', .ident "case", .punct '=', .lit "\"camel\""]

/-- Tokens of `Parent::a.b.c`. -/
def toksABC : List TokenTree :=
  [.ident "Parent", .punct ':', .punct ':', .ident "a", .punct '.', .ident "b",
   .punct '.', .ident "c"]

/-- Tokens of `Parent::a.b.c; delim="."`. -/
def toksABCDelimDot : List TokenTree :=
  toksABC ++ [.punct ';', .ident "delim", .punct '=', .lit "\".\""]

/-! ### Claim theorems -/

/-- C1: in both the `paths!` and `path!` scanners, an identifier run already
committed as a field segment that is immediately followed by `::` is folded
into the struct reference joined with `"::"` (the field accumulator is
cleared and field-reading mode reopens only on the following token), and on
`a::b::Type::field` both scanners produce struct reference `"a::b::Type"`
with field path `"field"`; the accumulated segment becomes the first field
segment only because no further `::` follows it. -/
theorem colon_folds_field_into_struct_reference
    (st : PathsState) (st' : PathState) (n p n' p' : String)
    (hn : st.currentStructName = some n) (ho : st.openedStruct = true)
    (hc : st.colonsCounter < 2) (hf : st.currentFieldPath = some p)
    (hn' : st'.currentStructName = some n') (ho' : st'.openedStruct = true)
    (hc' : st'.colonsCounter < 2) (hf' : st'.currentFieldPath = some p') :
    stepPaths st (.punct ':') =
      .ok { st with colonsCounter := st.colonsCounter + 1, openedStruct := false,
                    currentFieldPath := none,
                    currentStructName := some (n ++ "::" ++ p) } ∧
    stepPath st' (.punct ':') =
      .ok { st' with colonsCounter := st'.colonsCounter + 1, openedStruct := false,
                     currentFieldPath := none,
                     currentStructName := some (n' ++ "::" ++ p') } ∧
    pathsParse toksRefFold = .ok ([("a::b::Type", ["field"])], []) ∧
    pathParse toksRefFold = .ok ([("a::b::Type", ["field"])], "field", []) := by
  refine ⟨?_, ?_, rfl, rfl⟩
  · simp [stepPaths, hn, ho, hc, hf]
  · simp [stepPath, hn', ho', hc', hf']

/-- Witness for C1 at the state reached inside `a::b::Type::field` just
before the third `::`. -/
theorem colon_folds_field_into_struct_reference_witness :
    stepPaths ⟨some "a::b", [], true, 0, false, some "Type", none, false, [], []⟩
        (.punct ':') =
      .ok ⟨some "a::b::Type", [], false, 1, false, none, none, false, [], []⟩ ∧
    stepPath ⟨some "a::b", true, 0, false, some "Type", none, none, false, [], []⟩
        (.punct ':') =
      .ok ⟨some "a::b::Type", false, 1, false, none, none, none, false, [], []⟩ ∧
    pathsParse toksRefFold = .ok ([("a::b::Type", ["field"])], []) ∧
    pathParse toksRefFold = .ok ([("a::b::Type", ["field"])], "field", []) := by
  have h := colon_folds_field_into_struct_reference
    ⟨some "a::b", [], true, 0, false, some "Type", none, false, [], []⟩
    ⟨some "a::b", true, 0, false, some "Type", none, none, false, [], []⟩
    "a::b" "Type" "a::b" "Type" rfl rfl (by decide) rfl rfl rfl (by decide) rfl
  exact ⟨h.1, h.2.1, h.2.2.1, h.2.2.2⟩

/-- C2: on two or more comma-separated struct entries with non-empty field
paths and no options, the scalar `path!` scanner accumulates one growing
dotted path — its output string literal is the entries' field paths joined
with `"."` — while the collection `paths!` scanner commits each entry as a
separate sibling struct entry. -/
theorem scalar_comma_concatenates_paths (entries : List (String × List String))
    (hlen : 2 ≤ entries.length) (hsegs : ∀ e ∈ entries, e.2 ≠ []) :
    pathParse (entriesToks entries) =
      .ok (entries.map (fun e => (e.1, [joinSep "." e.2])),
           joinSep "." (entries.map (fun e => joinSep "." e.2)), []) ∧
    path (entriesToks entries) =
      .ok ("\x7b" ++
           generate_checks_code_for (entries.map (fun e => (e.1, [joinSep "." e.2]))) ++
           "\n\"" ++ joinSep "." (entries.map (fun e => joinSep "." e.2)) ++
           "\"\x7d") ∧
    pathsParse (entriesToks entries) =
      .ok (entries.map (fun e => (e.1, [joinSep "." e.2])), []) := by
  have hne : entries ≠ [] := by
    intro h
    rw [h] at hlen
    exact absurd hlen (by decide)
  have hp : pathParse (entriesToks entries) =
      .ok (entries.map (fun e => (e.1, [joinSep "." e.2])),
           joinSep "." (entries.map (fun e => joinSep "." e.2)), []) := by
    unfold pathParse pathScan initPathState
    rw [pathScanFinish_entries entries hne hsegs none none false [] []]
    simp [optDot]
  have hps : pathsParse (entriesToks entries) =
      .ok (entries.map (fun e => (e.1, [joinSep "." e.2])), []) := by
    unfold pathsParse pathsScan initPathsState
    rw [pathsScanFinish_entries entries hne hsegs none false [] []]
    simp
  refine ⟨hp, ?_, hps⟩
  simp only [path, hp, ok_bind, apply_options_nil]

/-- Witness for C2 on `Parent::value_str, Child::child_value_str`. -/
theorem scalar_comma_concatenates_paths_witness :
    pathParse (entriesToks [("Parent", ["value_str"]), ("Child", ["child_value_str"])]) =
      .ok ([("Parent", ["value_str"]), ("Child", ["child_value_str"])],
           "value_str.child_value_str", []) ∧
    pathsParse (entriesToks [("Parent", ["value_str"]), ("Child", ["child_value_str"])]) =
      .ok ([("Parent", ["value_str"]), ("Child", ["child_value_str"])], []) := by
  have h := scalar_comma_concatenates_paths
    [("Parent", ["value_str"]), ("Child", ["child_value_str"])]
    (by decide) (by decide)
  exact ⟨h.1, h.2.2⟩

/-- C3: with `delim="/"` and `case="camel"` the formatter splits on `.`,
camel-cases each segment independently (never across a boundary: on a
dot-join of dot-free segments it is exactly the segment-wise map), joins
with the delim string; the delim is inserted between segments regardless of
case mode and defaults to `"."`; end to end,
`Parent::value_child.child_value_str; delim="/", case="camel"` yields the
string literal `"valueChild/childValueStr"`. -/
theorem camel_delim_formats_segmentwise (segs : List String) (field_path : String)
    (hne : segs ≠ []) (hdot : ∀ s ∈ segs, '.' ∉ s.data) :
    apply_options [("delim", "/"), ("case", "camel")] field_path =
      .ok (joinSep "/" ((splitChar '.' field_path).map snakeToCamel)) ∧
    apply_options [("delim", "/"), ("case", "camel")] (joinSep "." segs) =
      .ok (joinSep "/" (segs.map snakeToCamel)) ∧
    apply_options [("case", "camel")] field_path =
      .ok (joinSep "." ((splitChar '.' field_path).map snakeToCamel)) ∧
    path toksDelimCamel =
      .ok ("\x7b" ++
           generate_checks_code_for [("Parent", ["value_child.child_value_str"])] ++
           "\n\"valueChild/childValueStr\"\x7d") := by
  refine ⟨apply_options_camel_slash field_path, ?_,
          apply_options_camel_default_delim field_path, rfl⟩
  rw [apply_options_camel_slash (joinSep "." segs),
      splitChar_joinSep_dot segs hne hdot]

/-- Witness for C3 on the segments of `value_child.child_value_str`. -/
theorem camel_delim_formats_segmentwise_witness :
    apply_options [("delim", "/"), ("case", "camel")] "value_child.child_value_str" =
      .ok "valueChild/childValueStr" ∧
    apply_options [("case", "camel")] "value_child.child_value_str" =
      .ok "valueChild.childValueStr" := by
  have h := camel_delim_formats_segmentwise ["value_child", "child_value_str"]
    "value_child.child_value_str" (by decide) (by decide)
  exact ⟨h.1, h.2.2.1⟩

/-- C5: formatting is the identity when no options are given —
`apply_options` with an empty map returns the field path unchanged for every
path, the same holds with an explicit `delim="."` and no `case`, and
end to end `Parent::a.b.c` produces exactly `"a.b.c"`, with or without
`delim="."`. -/
theorem no_options_formatting_identity (field_path : String) :
    apply_options [] field_path = .ok field_path ∧
    apply_options [("delim", ".")] field_path = .ok field_path ∧
    path toksABC =
      .ok ("\x7b" ++ generate_checks_code_for [("Parent", ["a.b.c"])] ++
           "\n\"a.b.c\"\x7d") ∧
    path toksABCDelimDot =
      .ok ("\x7b" ++ generate_checks_code_for [("Parent", ["a.b.c"])] ++
           "\n\"a.b.c\"\x7d") := by
  refine ⟨apply_options_nil field_path, apply_options_delim_dot field_path, rfl, ?_⟩
  have hparse : pathParse toksABCDelimDot =
      .ok ([("Parent", ["a.b.c"])], "a.b.c", [("delim", ".")]) := rfl
  simp only [path, hparse, ok_bind, apply_options_delim_dot]
  rfl

theorem parse_multiple_fields_members_trailing (members : List (List String))
    (hne : members ≠ []) (hall : ∀ m ∈ members, m ≠ []) :
    ∀ acc : List String,
    parse_multiple_fields (groupMemberToks members ++ [.punct ',']) acc =
      .ok (acc ++ members.map (joinSep ".")) := by
  induction members with
  | nil => exact absurd rfl hne
  | cons m ms ih =>
    intro acc
    cases ms with
    | nil =>
      rw [show groupMemberToks [m] = dottedToks m from rfl, parse_multiple_fields,
          List.foldlM_append,
          foldGroup_dotted m (hall m (List.mem_cons_self m [])) none acc, ok_bind,
          List.foldlM_cons,
          show stepGroup (some (optPre none (joinSep "." m)), acc) (.punct ',') =
            .ok (none, acc ++ [optPre none (joinSep "." m)]) from rfl,
          ok_bind]
      rfl
    | cons m' ms' =>
      rw [parse_multiple_fields,
          show groupMemberToks (m :: m' :: ms') ++ [.punct ','] =
            dottedToks m ++ .punct ',' :: (groupMemberToks (m' :: ms') ++ [.punct ',']) from by
            simp [groupMemberToks],
          List.foldlM_append,
          foldGroup_dotted m (hall m (List.mem_cons_self m _)) none acc,
          ok_bind, List.foldlM_cons,
          show stepGroup (some (optPre none (joinSep "." m)), acc) (.punct ',') =
            .ok (none, acc ++ [optPre none (joinSep "." m)]) from rfl,
          ok_bind]
      have h2 := ih (by simp) (fun x hx => hall x (List.mem_cons_of_mem m hx))
        (acc ++ [optPre none (joinSep "." m)])
      rw [parse_multiple_fields] at h2
      rw [h2, List.append_assoc]
      rfl

/-- Tokens of `Parent::{ value_str, value_num }`. -/
def toksGroupPair : List TokenTree :=
  [.ident "Parent", .punct ':', .punct ':',
   .group [.ident "value_str", .punct ',', .ident "value_num"]]

/-- C4: a `paths!` invocation whose entry uses the braced group form parses
the group into one field path per comma-separated member, in member order;
the final member needs no trailing comma (a trailing comma gives the same
result); the output array holds one formatted (here: quoted, unformatted)
string per member, and `Parent::{ value_str, value_num }` emits
`["value_str","value_num"]`. -/
theorem group_form_emits_member_per_element (name : String)
    (members : List (List String)) (hne : members ≠ [])
    (hall : ∀ m ∈ members, m ≠ []) :
    pathsParse [.ident name, .punct ':', .punct ':', .group (groupMemberToks members)] =
      .ok ([(name, members.map (joinSep "."))], []) ∧
    pathsAllFinalFields [(name, members.map (joinSep "."))] [] =
      .ok ((members.map (joinSep ".")).map (fun f => "\"" ++ f ++ "\"")) ∧
    parse_multiple_fields (groupMemberToks members ++ [.punct ',']) [] =
      parse_multiple_fields (groupMemberToks members) [] ∧
    paths toksGroupPair =
      .ok ("\x7b" ++ generate_checks_code_for [("Parent", ["value_str", "value_num"])] ++
           "\n[\"value_str\",\"value_num\"]\x7d") := by
  have hg := parse_multiple_fields_members members hne hall []
  rw [List.nil_append] at hg
  have hmap : members.map (joinSep ".") ≠ [] := by
    intro h
    exact hne (List.map_eq_nil_iff.mp h)
  refine ⟨?_, ?_, ?_, rfl⟩
  · unfold pathsParse pathsScan initPathsState
    change ((match parse_multiple_fields (groupMemberToks members) [] with
        | Except.ok fields =>
          Except.ok (⟨some name, fields, true, 2, false, none, none, false, [], []⟩ :
            PathsState)
        | Except.error e => Except.error e) >>=
       fun i => List.foldlM stepPaths i []) >>= pathsFinish = _
    rw [hg, ok_bind]
    show pathsFinish ⟨some name, members.map (joinSep "."), true, 2, false,
        none, none, false, [], []⟩ = _
    simp only [pathsFinish, List.append_nil]
    rw [if_pos hmap]
    rfl
  · change (members.map (joinSep ".") ++ []).mapM
        (fun field_path => (Except.ok ("\"" ++ field_path ++ "\"") :
          Except ScanError String)) = _
    rw [List.append_nil, mapM_ok (fun f => "\"" ++ f ++ "\"")]
  · rw [parse_multiple_fields_members_trailing members hne hall [], hg,
        List.nil_append]

/-- Witness for C4 with the two-member group `{ value_str, value_num }`. -/
theorem group_form_emits_member_per_element_witness :
    pathsParse [.ident "Parent", .punct ':', .punct ':',
        .group (groupMemberToks [["value_str"], ["value_num"]])] =
      .ok ([("Parent", ["value_str", "value_num"])], []) ∧
    paths toksGroupPair =
      .ok ("\x7b" ++ generate_checks_code_for [("Parent", ["value_str", "value_num"])] ++
           "\n[\"value_str\",\"value_num\"]\x7d") := by
  have h := group_form_emits_member_per_element "Parent" [["value_str"], ["value_num"]]
    (by decide) (by decide)
  exact ⟨h.1, h.2.2.2⟩

/-- Tokens of `Parent::f; case="shout"`. -/
def toksCaseShout : List TokenTree :=
  [.ident "Parent", .punct ':', .punct ':', .ident "f", .punct ';',
   .ident "case", .punct '=', .lit "\"shout\""]

/-- C6 counterexample: the scanner layer does NOT reject an unknown `case`
value — the `paths!` scan (including its end-of-input commits) completes
successfully on `Parent::f; case="shout"`, storing the raw value `"shout"`
in the options map, so the claimed redundant scanner-layer validation does
not exist. -/
theorem scanner_accepts_unknown_case :
    pathsParse toksCaseShout = .ok ([("Parent", ["f"])], [("case", "shout")]) ∧
    pathParse toksCaseShout =
      .ok ([("Parent", ["f"])], "f", [("case", "shout")]) := ⟨rfl, rfl⟩

/-- C6 (amended): any options map binding `case` to a value other than
`"camel"`/`"pascal"` makes `apply_options` fail with the unknown-case error,
and both macros therefore fail with that error and produce no output — but
the rejection is performed only by the formatter layer; the scanner stores
the invalid value without checking it. -/
theorem unknown_case_rejected_by_formatter_only
    (options : List (String × String)) (case_value field_path : String)
    (hcase : optGet options "case" = some case_value)
    (hc1 : case_value ≠ "camel") (hc2 : case_value ≠ "pascal") :
    apply_options options field_path = .error (.unknownCase case_value) ∧
    paths toksCaseShout = .error (.unknownCase "shout") ∧
    path toksCaseShout = .error (.unknownCase "shout") ∧
    pathsParse toksCaseShout = .ok ([("Parent", ["f"])], [("case", "shout")]) :=
  ⟨apply_options_unknown_case options case_value field_path hcase hc1 hc2,
   rfl, rfl, rfl⟩

/-- Witness for C6 (amended) at `case="shout"`. -/
theorem unknown_case_rejected_by_formatter_only_witness :
    apply_options [("case", "shout")] "f" = .error (.unknownCase "shout") ∧
    paths toksCaseShout = .error (.unknownCase "shout") := by
  have h := unknown_case_rejected_by_formatter_only [("case", "shout")] "shout" "f"
    rfl (by decide) (by decide)
  exact ⟨h.1, h.2.1⟩

/-- Tokens of `Parent::{}`. -/
def toksEmptyGroup : List TokenTree :=
  [.ident "Parent", .punct ':', .punct ':', .group []]

/-- C7 counterexample: on an empty group token sequence the Group Sub-Parser
does not fail at all — it returns the caller's field list unchanged (here the
empty list), contradicting the claimed `EmptyGroup` failure inside the
sub-parser. -/
theorem empty_group_subparser_returns_empty_list :
    parse_multiple_fields [] [] = .ok [] := rfl

/-- C7 (amended): `parse_multiple_fields` on an empty group returns its
accumulator unchanged; the scan of `Parent::{}` itself succeeds, and the
invocation aborts only at end of input with the empty-fields error naming
the struct (`Unexpected comma with empty fields for Parent!`), not with a
group-level error. -/
theorem empty_group_fails_at_end_of_input (acc : List String) :
    parse_multiple_fields [] acc = .ok acc ∧
    pathsScan toksEmptyGroup =
      .ok ⟨some "Parent", [], true, 2, false, none, none, false, [], []⟩ ∧
    paths toksEmptyGroup = .error (.emptyFields "Parent") := by
  refine ⟨?_, rfl, rfl⟩
  cases acc <;> rfl

/-! ### Options-section preservation (C8 machinery) -/

theorem err_bind {α β : Type} (e : ScanError) (f : α → Except ScanError β) :
    (Except.error e >>= f) = Except.error e := rfl

theorem exceptMap_map {α β γ : Type} (f : α → β) (g : β → γ) (x : Except ScanError α) :
    Except.map g (Except.map f x) = Except.map (fun a => g (f a)) x := by
  cases x <;> rfl

/-- Tokens legal inside the options section: identifiers, literals, `=`, `,`. -/
def optSectionTok : TokenTree → Bool
  | .ident _ => true
  | .lit _ => true
  | .punct c => c = '=' || c = ','
  | .group _ => false

theorem stepPaths_optmode_preserve (st st' : PathsState) (t : TokenTree)
    (hoo : st.optionsOpened = true) (ho : st.openedStruct = false)
    (hn : st.currentStructName.isSome = true)
    (ht : optSectionTok t = true)
    (h : stepPaths st t = .ok st') :
    st'.currentStructName = st.currentStructName ∧
    st'.currentStructFields = st.currentStructFields ∧
    st'.currentFieldPath = st.currentFieldPath ∧
    st'.foundStructs = st.foundStructs ∧
    st'.optionsOpened = true ∧ st'.openedStruct = false := by
  obtain ⟨n, hn'⟩ := Option.isSome_iff_exists.mp hn
  cases t with
  | ident s =>
    cases hev : st.expectOptionValue with
    | false =>
      simp only [stepPaths, hn', ho, hoo, hev] at h
      simp at h
      subst h
      simp [hoo, ho, hn']
    | true =>
      cases hopn : st.currentOptionName with
      | none =>
        simp [stepPaths, hn', ho, hoo, hev, hopn] at h
      | some k =>
        simp only [stepPaths, hn', ho, hoo, hev, hopn] at h
        simp at h
        subst h
        simp [hoo, ho, hn']
  | lit s =>
    cases hev : st.expectOptionValue with
    | false => simp [stepPaths, hoo, hev] at h
    | true =>
      cases hopn : st.currentOptionName with
      | none => simp [stepPaths, hoo, hev, hopn] at h
      | some k =>
        by_cases hlen : 2 ≤ s.length
        · simp only [stepPaths, hoo, hev, hopn, if_pos hlen] at h
          simp at h
          subst h
          simp [hoo, ho]
        · simp [stepPaths, hoo, hev, hopn, if_neg hlen] at h
  | punct c =>
    have hc : c = '=' ∨ c = ',' := by
      simpa [optSectionTok] using ht
    rcases hc with rfl | rfl
    · simp only [stepPaths, hoo] at h
      simp at h
      subst h
      simp [hoo, ho]
    · simp only [stepPaths, hoo, ho] at h
      simp at h
      subst h
      simp [hoo, ho]
  | group g => simp [optSectionTok] at ht

theorem foldPaths_optmode_preserve (ts : List TokenTree)
    (hts : ∀ t ∈ ts, optSectionTok t = true) :
    ∀ st st' : PathsState, st.optionsOpened = true → st.openedStruct = false →
      st.currentStructName.isSome = true →
      List.foldlM stepPaths st ts = .ok st' →
      st'.currentStructName = st.currentStructName ∧
      st'.currentStructFields = st.currentStructFields ∧
      st'.currentFieldPath = st.currentFieldPath ∧
      st'.foundStructs = st.foundStructs ∧
      st'.optionsOpened = true ∧ st'.openedStruct = false := by
  induction ts with
  | nil =>
    intro st st' hoo ho _ h
    rw [List.foldlM_nil] at h
    have hst : st = st' := Except.ok.inj h
    subst hst
    exact ⟨rfl, rfl, rfl, rfl, hoo, ho⟩
  | cons t ts ih =>
    intro st st' hoo ho hn h
    rw [List.foldlM_cons] at h
    cases hstep : stepPaths st t with
    | error e =>
      rw [hstep, err_bind] at h
      exact Except.noConfusion h
    | ok st1 =>
      rw [hstep, ok_bind] at h
      have h1 := stepPaths_optmode_preserve st st1 t hoo ho hn
        (hts t (List.mem_cons_self t ts)) hstep
      have h2 := ih (fun x hx => hts x (List.mem_cons_of_mem t hx)) st1 st'
        h1.2.2.2.2.1 h1.2.2.2.2.2 (by rw [h1.1]; exact hn) h
      exact ⟨h2.1.trans h1.1, h2.2.1.trans h1.2.1, h2.2.2.1.trans h1.2.2.1,
             h2.2.2.2.1.trans h1.2.2.2.1, h2.2.2.2.2.1, h2.2.2.2.2.2⟩

theorem pathsFinish_fst_congr (s1 s0 : PathsState)
    (h1 : s1.currentStructName = s0.currentStructName)
    (h2 : s1.currentStructFields = s0.currentStructFields)
    (h3 : s1.currentFieldPath = s0.currentFieldPath)
    (h4 : s1.foundStructs = s0.foundStructs) :
    Except.map Prod.fst (pathsFinish s1) = Except.map Prod.fst (pathsFinish s0) := by
  simp only [pathsFinish, h1, h2, h3, h4]
  cases hname : s0.currentStructName with
  | none => rfl
  | some n =>
    dsimp only
    by_cases hf : s0.currentStructFields ++
        (match s0.currentFieldPath with
         | some field_path => [field_path]
         | none => []) ≠ []
    · rw [if_pos hf, if_pos hf]
      rfl
    · rw [if_neg hf, if_neg hf]

/-- C8: the emitted check expressions are computed from the raw,
pre-formatting field paths.  Appending an options section (`;` followed by
any option tokens) to a `paths!` input never changes the committed struct
entries, hence the check-code portion of the output is byte-identical with
and without formatting options; the same holds concretely for `path!` with
`delim="/", case="camel"`. -/
theorem checks_independent_of_options
    (ts0 opts : List TokenTree) (st0 st1 : PathsState)
    (hscan : pathsScan ts0 = .ok st0)
    (hopen : st0.openedStruct = true)
    (hoo0 : st0.optionsOpened = false)
    (hname : st0.currentStructName.isSome = true)
    (hopts : ∀ t ∈ opts, optSectionTok t = true)
    (hscan1 : pathsScan (ts0 ++ .punct ';' :: opts) = .ok st1) :
    Except.map Prod.fst (pathsParse (ts0 ++ .punct ';' :: opts)) =
      Except.map Prod.fst (pathsParse ts0) ∧
    Except.map (fun r => generate_checks_code_for r.1)
        (pathsParse (ts0 ++ .punct ';' :: opts)) =
      Except.map (fun r => generate_checks_code_for r.1) (pathsParse ts0) ∧
    Except.map (fun r => generate_checks_code_for r.1) (pathParse toksDelimCamel) =
      Except.map (fun r => generate_checks_code_for r.1)
        (pathParse [.ident "Parent", .punct ':', .punct ':', .ident "value_child",
                    .punct '.', .ident "child_value_str"]) := by
  have hsemi : stepPaths st0 (.punct ';') =
      .ok { st0 with optionsOpened := true, openedStruct := false } := by
    simp [stepPaths, hopen, hoo0]
  have hext : pathsScan (ts0 ++ .punct ';' :: opts) =
      List.foldlM stepPaths { st0 with optionsOpened := true, openedStruct := false }
        opts := by
    rw [pathsScan, List.foldlM_append,
        show List.foldlM stepPaths initPathsState ts0 = pathsScan ts0 from rfl,
        hscan, ok_bind, List.foldlM_cons, hsemi, ok_bind]
  have hfold : List.foldlM stepPaths
      { st0 with optionsOpened := true, openedStruct := false } opts = .ok st1 := by
    rw [← hext]
    exact hscan1
  have hpres := foldPaths_optmode_preserve opts hopts
    { st0 with optionsOpened := true, openedStruct := false } st1
    rfl rfl hname hfold
  have hfst : Except.map Prod.fst (pathsFinish st1) =
      Except.map Prod.fst (pathsFinish st0) :=
    pathsFinish_fst_congr st1 st0 hpres.1 hpres.2.1 hpres.2.2.1 hpres.2.2.2.1
  have hparse_ext : pathsParse (ts0 ++ .punct ';' :: opts) = pathsFinish st1 := by
    unfold pathsParse
    rw [hscan1, ok_bind]
  have hparse_base : pathsParse ts0 = pathsFinish st0 := by
    unfold pathsParse
    rw [hscan, ok_bind]
  refine ⟨?_, ?_, rfl⟩
  · rw [hparse_ext, hparse_base]
    exact hfst
  · rw [hparse_ext, hparse_base]
    have hmapped := congrArg (Except.map generate_checks_code_for) hfst
    rw [exceptMap_map, exceptMap_map] at hmapped
    exact hmapped

/-- Witness for C8: `Parent::f` with and without `; delim="/"`. -/
theorem checks_independent_of_options_witness :
    Except.map Prod.fst
        (pathsParse ([.ident "Parent", .punct ':', .punct ':', .ident "f"] ++
          .punct ';' :: [.ident "delim", .punct '=', .lit "\"/\""])) =
      Except.map Prod.fst
        (pathsParse [.ident "Parent", .punct ':', .punct ':', .ident "f"]) ∧
    Except.map (fun r => generate_checks_code_for r.1)
        (pathsParse ([.ident "Parent", .punct ':', .punct ':', .ident "f"] ++
          .punct ';' :: [.ident "delim", .punct '=', .lit "\"/\""])) =
      Except.map (fun r => generate_checks_code_for r.1)
        (pathsParse [.ident "Parent", .punct ':', .punct ':', .ident "f"]) := by
  have h := checks_independent_of_options
    [.ident "Parent", .punct ':', .punct ':', .ident "f"]
    [.ident "delim", .punct '=', .lit "\"/\""]
    ⟨some "Parent", [], true, 0, false, some "f", none, false, [], []⟩
    ⟨some "Parent", [], false, 0, true, some "f", none, false, [("delim", "/")], []⟩
    rfl rfl rfl rfl (by decide) rfl
  exact ⟨h.1, h.2.1⟩

/-- Tokens of `TestStructParent::opt_value_child~child_value_str`. -/
def toksTilde : List TokenTree :=
  [.ident "TestStructParent", .punct ':', .punct ':', .ident "opt_value_child",
   .punct '~', .ident "child_value_str"]

/-- C9: neither scanner has an arm for the `~` punctuation — from any state
it falls to the catch-all and the invocation aborts with the `Unexpected
input` error, instead of treating `~` like `.`; concretely on the test
input `TestStructParent::opt_value_child~child_value_str` both macros fail
so. -/
theorem tilde_operator_not_accepted (st : PathsState) (st' : PathState) :
    stepPaths st (.punct '~') = .error (.unexpectedInput (.punct '~')) ∧
    stepPath st' (.punct '~') = .error (.unexpectedInput (.punct '~')) ∧
    paths toksTilde = .error (.unexpectedInput (.punct '~')) ∧
    path toksTilde = .error (.unexpectedInput (.punct '~')) :=
  ⟨rfl, rfl, rfl, rfl⟩

/-- Tokens of `Parent::f; delim=5`. -/
def toksDelimFive : List TokenTree :=
  [.ident "Parent", .punct ':', .punct ':', .ident "f", .punct ';',
   .ident "delim", .punct '=', .lit "5"]

/-- C10: both macros store an option literal's source text with its first
and last characters removed via the unguarded `[1..len-1]` slice; a literal
whose text is a single character (e.g. `delim=5`) makes the slice bounds
invalid and the macro aborts with the slice-index failure rather than a
parse diagnostic, while a literal of length at least two is stored
stripped. -/
theorem single_char_option_literal_panics
    (st : PathsState) (st' : PathState) (k k' s u : String)
    (hoo : st.optionsOpened = true) (hev : st.expectOptionValue = true)
    (hopn : st.currentOptionName = some k)
    (hoo' : st'.optionsOpened = true) (hev' : st'.expectOptionValue = true)
    (hopn' : st'.currentOptionName = some k')
    (hs : s.length < 2) (hu : 2 ≤ u.length) :
    stepPaths st (.lit s) = .error .sliceIndexFail ∧
    stepPath st' (.lit s) = .error .sliceIndexFail ∧
    stepPaths st (.lit u) =
      .ok { st with expectOptionValue := false, currentOptionName := none,
                    options := optInsert st.options k ((u.drop 1).dropRight 1) } ∧
    stepPath st' (.lit u) =
      .ok { st' with expectOptionValue := false, currentOptionName := none,
                     options := optInsert st'.options k' ((u.drop 1).dropRight 1) } ∧
    paths toksDelimFive = .error .sliceIndexFail ∧
    path toksDelimFive = .error .sliceIndexFail := by
  have hns : ¬ (2 ≤ s.length) := by omega
  refine ⟨?_, ?_, ?_, ?_, rfl, rfl⟩
  · simp [stepPaths, hoo, hev, hopn, hns]
  · simp [stepPath, hoo', hev', hopn', hns]
  · simp [stepPaths, hoo, hev, hopn, hu]
  · simp [stepPath, hoo', hev', hopn', hu]

/-- Witness for C10 at `delim=5` (literal text `"5"`, length 1) and
`delim="/"` (literal text `"\/"`, length 3). -/
theorem single_char_option_literal_panics_witness :
    stepPaths ⟨some "Parent", [], false, 0, true, some "f", some "delim", true, [], []⟩
        (.lit "5") = .error .sliceIndexFail ∧
    paths toksDelimFive = .error .sliceIndexFail ∧
    stepPaths ⟨some "Parent", [], false, 0, true, some "f", some "delim", true, [], []⟩
        (.lit "\"/\"") =
      .ok ⟨some "Parent", [], false, 0, true, some "f", none, false,
           [("delim", "/")], []⟩ := by
  have h := single_char_option_literal_panics
    ⟨some "Parent", [], false, 0, true, some "f", some "delim", true, [], []⟩
    ⟨some "Parent", false, 0, true, some "f", none, some "delim", true, [], []⟩
    "delim" "delim" "5" "\"/\"" rfl rfl rfl rfl rfl rfl (by decide) (by decide)
  exact ⟨h.1, h.2.2.2.2.1, h.2.2.1⟩

end StructPath
